import Mathlib

/-!
Verification development for the Abacaxi-Friends attendance application
(src/app.py). The Python program is shallowly embedded: the participant
table is a list of rows, the external Google Sheets and Drive calls are
modelled by explicit success flags (fault injection), and the filesystem
and remote writes performed by one workflow invocation are recorded as an
event trace. Every definition mirrors the corresponding source function.
-/

/-- Character class of Python whitespace as used by str.strip (ASCII part). -/
def isSpace (c : Char) : Bool :=
  c == ' ' || c == '\t' || c == '\n' || c == '\r' || c == '\x0b' || c == '\x0c'

/-- The upper-to-lower table of the basic latin letters. -/
def lowerPairs : List (Char × Char) :=
  [('A','a'), ('B','b'), ('C','c'), ('D','d'), ('E','e'), ('F','f'), ('G','g'),
   ('H','h'), ('I','i'), ('J','j'), ('K','k'), ('L','l'), ('M','m'), ('N','n'),
   ('O','o'), ('P','p'), ('Q','q'), ('R','r'), ('S','s'), ('T','t'), ('U','u'),
   ('V','v'), ('W','w'), ('X','x'), ('Y','y'), ('Z','z')]

/-- ASCII lower casing of one character, mirroring str.lower / pandas
str.lower on the ASCII range used by the app. -/
def lowerChar (c : Char) : Char :=
  ((lowerPairs.find? (fun p => p.1 = c)).map Prod.snd).getD c

/-- Lower casing of a character list. -/
def lowerL (l : List Char) : List Char := l.map lowerChar

/-- Python str.strip on a character list: drop leading whitespace, then
drop trailing whitespace. -/
def trimL (l : List Char) : List Char :=
  ((l.dropWhile isSpace).reverse.dropWhile isSpace).reverse

/-- Lower casing of a string (model of str.lower). -/
def lowerS (s : String) : String := ⟨lowerL s.data⟩

/-- Model of str.strip on a string. -/
def trimS (s : String) : String := ⟨trimL s.data⟩

/-- Model of re.sub applied with the non-digit class and empty replacement:
keep only the decimal digits of the string (app.py line 200 and line 99). -/
def stripNonDigits (s : String) : String := ⟨s.data.filter (fun c => c.isDigit)⟩

/-- The needle is an initial segment of the haystack. -/
def startsWithL : List Char → List Char → Bool
  | [], _ => true
  | _ :: _, [] => false
  | a :: q, b :: l => a == b && startsWithL q l

/-- Literal substring test on character lists: the model of the pandas
str.contains call with regex disabled (app.py line 234). The query is NOT
interpreted as a pattern. -/
def segInB (q : List Char) : List Char → Bool
  | [] => q.isEmpty
  | a :: l => startsWithL q (a :: l) || segInB q l

/-- The proposition that q occurs contiguously inside l. -/
def SegIn (q l : List Char) : Prop := ∃ s t, l = s ++ q ++ t

/-- Model of pathlib Path(name).suffix on a bare file name: the part of the
name from its last dot on, provided that dot is neither the first nor the
last character; empty otherwise (app.py line 136). -/
def pathSuffix (s : String) : String :=
  let n := s.data
  match n.reverse.findIdx? (fun c => c = '.') with
  | none => ""
  | some j =>
      let i := n.length - 1 - j
      if 0 < i ∧ i < n.length - 1 then ⟨n.drop i⟩ else ""

/-- One row of the participant table (columns A:D of the sheet). -/
structure Row where
  nome : String
  celular : String
  tipo : String
  status : String
deriving DecidableEq, Repr

/-- Initial status written at registration (app.py line 215). -/
def pendente : String := "Pagamento Pendente"

/-- Terminal status written after a successful upload (app.py line 256). -/
def emAnalise : String := "Pagamento Em Análise"

/-- Model of app.py line 234: filter the table by a literal,
case-insensitive containment test of the search term in the stored name.
The caller (line 232-233) strips the raw input and only searches when the
stripped term is non-empty. -/
def searchRows (df : List Row) (q : String) : List Row :=
  df.filter (fun r => segInB (lowerL q.data) (lowerL r.nome.data))

/-- The search contract as the specification words it: exactly the rows
whose case-insensitive, trimmed name contains the query case-insensitively,
as a literal substring, in stored order. -/
def searchSpec (df : List Row) (q : String) : List Row :=
  df.filter (fun r => segInB (lowerL q.data) (trimL (lowerL r.nome.data)))

/-- Inputs of the registration form (app.py lines 181-196). -/
structure RegInput where
  name : String
  phone : String
  tipo : String
deriving DecidableEq, Repr

/-- What the registration submit handler reports (app.py lines 199-223). -/
inductive RegOutcome
  | missingFields
  | invalidPhone
  | duplicate
  | saved
  | saveFailed
deriving DecidableEq, Repr

/-- The observable effect of one registration submit: the in-memory table
afterwards, the report, and the successful record-store rewrite if one
happened (none when no write was attempted or the write failed). -/
structure RegResult where
  df : List Row
  outcome : RegOutcome
  storeWrite : Option (List Row)
deriving DecidableEq, Repr

/-- Model of app.py line 207: membership of the lowered (untrimmed) input
name among the lowered stored names. -/
def dupCheck (df : List Row) (name : String) : Bool :=
  df.any (fun r => lowerS r.nome = lowerS name)

/-- Model of the registration submit handler, app.py lines 199-223.
saveOk injects the outcome of the record-store write (DataManager
save_data, lines 105-119): the sheet update either succeeds or raises and
is caught, returning False. Note that the truthiness test at line 201 only
rejects an empty name string; a whitespace-only name passes it. -/
def register (df : List Row) (inp : RegInput) (saveOk : Bool) : RegResult :=
  let digits := stripNonDigits inp.phone
  if inp.name = "" ∨ digits = "" then
    ⟨df, .missingFields, none⟩
  else if digits.length ≠ 11 then
    ⟨df, .invalidPhone, none⟩
  else if dupCheck df inp.name then
    ⟨df, .duplicate, none⟩
  else
    let row : Row := ⟨trimS inp.name, digits, inp.tipo, pendente⟩
    let df' := df ++ [row]
    if saveOk then ⟨df', .saved, some df'⟩ else ⟨df', .saveFailed, none⟩

/-- An uploaded proof: original file name and byte length. -/
structure UploadedFile where
  name : String
  size : Nat
deriving DecidableEq, Repr

/-- Writes performed by the workflow outside the in-memory table: a file
written under a local directory, or a blob created in the Drive folder. -/
inductive Event
  | localWrite (dir : String) (fn : String)
  | blobCreate (fn : String)
deriving DecidableEq, Repr

/-- The local directory FileHandler writes to (app.py line 126). -/
def uploadDir : String := "uploads"

/-- Model of FileHandler init, app.py lines 126-127: the uploads directory
is created when the handler is constructed, before any upload. -/
def fileHandlerInitDirs : List String := [uploadDir]

/-- The fixed upload size bound in bytes (app.py line 131). -/
def maxUploadSize : Nat := 2 * 1024 * 1024

/-- The generated blob name, app.py lines 135-137: timestamp, underscore,
participant name, original extension. -/
def mkFilename (ts nm orig : String) : String := ts ++ "_" ++ nm ++ pathSuffix orig

/-- Result of FileHandler upload_file: the returned value (None on any
failure) is modelled by the first component. -/
inductive UploadOutcome
  | tooLarge
  | writeFailed
  | ok (filename : String)
deriving DecidableEq, Repr

/-- Model of FileHandler upload_file, app.py lines 129-154. The size check
runs before the try block; inside it the file is first written under the
local uploads directory, then the Drive create call runs. localOk and
blobOk inject success of the local write and of the Drive call; any raise
is caught and None is returned, with no cleanup of the local file. -/
def uploadFile (f : UploadedFile) (nm ts : String) (localOk blobOk : Bool) :
    UploadOutcome × List Event :=
  if f.size > maxUploadSize then (.tooLarge, [])
  else
    let fn := mkFilename ts nm f.name
    if localOk then
      if blobOk then (.ok fn, [.localWrite uploadDir fn, .blobCreate fn])
      else (.writeFailed, [.localWrite uploadDir fn])
    else (.writeFailed, [])

/-- What the confirmation submit handler reports (app.py lines 237-263). -/
inductive ConfirmOutcome
  | missing
  | alreadySubmitted
  | noFile
  | tooLarge
  | uploadFailed
  | saveFailed
  | success
deriving DecidableEq, Repr

/-- The observable effect of one confirmation attempt: the in-memory table
afterwards, the events performed, the successful record-store rewrite if
one happened, and the report. -/
structure ConfirmResult where
  df : List Row
  events : List Event
  storeWrite : Option (List Row)
  outcome : ConfirmOutcome
deriving DecidableEq, Repr

/-- Model of app.py line 237: Status of the first row whose Nome equals
the selected name. -/
def firstStatus (df : List Row) (sel : String) : Option String :=
  (df.find? (fun r => r.nome = sel)).map (fun r => r.status)

/-- Model of the confirmation flow after a name has been selected, app.py
lines 237-263: guard on the current status, upload with size check, then
status mutation of every row whose Nome equals the selection (line 256),
then the full-table rewrite. The missing case (selection absent from the
table) cannot arise in the app because the selection comes from the search
results. -/
def confirmSelected (df : List Row) (sel : String) (file : Option UploadedFile)
    (localOk blobOk saveOk : Bool) (ts : String) : ConfirmResult :=
  match df.find? (fun r => r.nome = sel) with
  | none => ⟨df, [], none, .missing⟩
  | some r =>
    if r.status ≠ pendente then ⟨df, [], none, .alreadySubmitted⟩
    else
      match file with
      | none => ⟨df, [], none, .noFile⟩
      | some f =>
        match uploadFile f sel ts localOk blobOk with
        | (.tooLarge, ev) => ⟨df, ev, none, .tooLarge⟩
        | (.writeFailed, ev) => ⟨df, ev, none, .uploadFailed⟩
        | (.ok _, ev) =>
          let df' := df.map (fun r =>
            if r.nome = sel then { r with status := emAnalise } else r)
          if saveOk then ⟨df', ev, some df', .success⟩
          else ⟨df', ev, none, .saveFailed⟩

/-- Contents of the record store after an operation: the rewrite if one
succeeded, the previous contents otherwise. -/
def applyStore (store : List Row) (w : Option (List Row)) : List Row :=
  w.getD store

/-- A raw table as returned by the sheets read: header row plus data rows,
or the empty canonical frame. -/
structure Frame where
  cols : List String
  rows : List (List String)
deriving DecidableEq, Repr

/-- The canonical empty four-column frame (app.py lines 97 and 103). -/
def emptyFrame : Frame := ⟨["Nome", "Celular", "Tipo", "Status"], []⟩

/-- The sheets read either raises (caught at line 101) or yields the cell
values. -/
inductive FetchResult
  | failure
  | success (values : List (List String))

/-- Model of building the data frame from fetched values (app.py lines
98-99): rows must match the header width and a Celular column must exist
for the digit strip; otherwise pandas raises inside the try block and the
failure path is taken. -/
def buildFrame (hdr : List String) (rows : List (List String)) : Option Frame :=
  if rows.all (fun r => r.length = hdr.length) then
    match hdr.findIdx? (fun c => c = "Celular") with
    | some j => some ⟨hdr, rows.map (fun r => r.set j (stripNonDigits (r.getD j "")))⟩
    | none => none
  else none

/-- Model of DataManager load_data, app.py lines 87-103: any raise from
the read or the frame construction is caught and the canonical empty frame
is returned; an empty value range also yields the canonical empty frame. -/
def loadData (res : FetchResult) : Frame :=
  match res with
  | .failure => emptyFrame
  | .success values =>
    match values with
    | [] => emptyFrame
    | hdr :: rest => (buildFrame hdr rest).getD emptyFrame

/-- The participant rows a frame denotes, by the fixed A:D column order. -/
def rowsOfFrame (f : Frame) : List Row :=
  f.rows.map (fun r => ⟨r.getD 0 "", r.getD 1 "", r.getD 2 "", r.getD 3 ""⟩)

/-! Lemma layer for the search claim: literal containment interacts with
stripping as expected when the query itself is stripped. -/

theorem startsWithL_iff (q : List Char) : ∀ l, startsWithL q l = true ↔ ∃ t, l = q ++ t := by
  induction q with
  | nil => intro l; simp [startsWithL]
  | cons a q ih =>
    intro l
    cases l with
    | nil => simp [startsWithL]
    | cons b l =>
      simp only [startsWithL, Bool.and_eq_true, beq_iff_eq, ih, List.cons_append,
        List.cons.injEq]
      constructor
      · rintro ⟨rfl, t, rfl⟩; exact ⟨t, rfl, rfl⟩
      · rintro ⟨t, rfl, rfl⟩; exact ⟨rfl, t, rfl⟩

theorem segIn_of_append_left {q l : List Char} (w : List Char) (h : SegIn q l) :
    SegIn q (w ++ l) := by
  obtain ⟨s, t, rfl⟩ := h
  exact ⟨w ++ s, t, by simp⟩

theorem segIn_cons_elim {q : List Char} {a : Char} {l : List Char}
    (h : SegIn q (a :: l)) : (∃ t, a :: l = q ++ t) ∨ SegIn q l := by
  obtain ⟨s, t, hst⟩ := h
  cases s with
  | nil => exact Or.inl ⟨t, by simpa using hst⟩
  | cons b s =>
    simp only [List.cons_append, List.cons.injEq] at hst
    exact Or.inr ⟨s, t, hst.2⟩

theorem segInB_iff (q : List Char) : ∀ l, segInB q l = true ↔ SegIn q l := by
  intro l
  induction l with
  | nil =>
    simp only [segInB, List.isEmpty_iff, SegIn]
    constructor
    · rintro rfl; exact ⟨[], [], rfl⟩
    · rintro ⟨s, t, hst⟩
      have := hst.symm
      simp only [List.append_eq_nil] at this
      exact this.1.2
  | cons a l ih =>
    simp only [segInB, Bool.or_eq_true, startsWithL_iff, ih]
    constructor
    · rintro (⟨t, ht⟩ | h)
      · exact ⟨[], t, by simpa using ht⟩
      · exact segIn_of_append_left [a] h
    · intro h
      rcases segIn_cons_elim h with ⟨t, ht⟩ | h
      · exact Or.inl ⟨t, ht⟩
      · exact Or.inr h

theorem segIn_ws_pre {qh : Char} {qt : List Char} (hqh : isSpace qh = false) :
    ∀ (w l : List Char), (∀ c ∈ w, isSpace c = true) →
      (SegIn (qh :: qt) (w ++ l) ↔ SegIn (qh :: qt) l) := by
  intro w
  induction w with
  | nil => intro l _; simp
  | cons a w ih =>
    intro l hw
    have ha : isSpace a = true := hw a (by simp)
    constructor
    · intro h
      rcases segIn_cons_elim (by simpa using h) with ⟨t, ht⟩ | h
      · simp only [List.cons_append, List.cons.injEq] at ht
        rw [ht.1] at ha
        rw [hqh] at ha
        cases ha
      · exact (ih l (fun c hc => hw c (by simp [hc]))).mp h
    · intro h
      exact segIn_of_append_left [a] ((ih l (fun c hc => hw c (by simp [hc]))).mpr h)

theorem segIn_reverse_of {q l : List Char} (h : SegIn q l) :
    SegIn q.reverse l.reverse := by
  obtain ⟨s, t, rfl⟩ := h
  exact ⟨t.reverse, s.reverse, by simp⟩

theorem segIn_reverse (q l : List Char) : SegIn q.reverse l.reverse ↔ SegIn q l := by
  constructor
  · intro h
    have := segIn_reverse_of h
    simpa using this
  · exact segIn_reverse_of

theorem segIn_ws_suf {qi : List Char} {ql : Char} (hql : isSpace ql = false)
    (w l : List Char) (hw : ∀ c ∈ w, isSpace c = true) :
    SegIn (qi ++ [ql]) (l ++ w) ↔ SegIn (qi ++ [ql]) l := by
  rw [← segIn_reverse (qi ++ [ql]) (l ++ w), ← segIn_reverse (qi ++ [ql]) l]
  have hrev : (qi ++ [ql]).reverse = ql :: qi.reverse := by simp
  rw [hrev]
  have hlw : (l ++ w).reverse = w.reverse ++ l.reverse := by simp
  rw [hlw]
  exact segIn_ws_pre hql w.reverse l.reverse
    (fun c hc => hw c (List.mem_reverse.mp hc))

theorem length_dropWhile_le (p : Char → Bool) (l : List Char) :
    (l.dropWhile p).length ≤ l.length := by
  induction l with
  | nil => simp
  | cons a l ih =>
    by_cases h : p a
    · rw [List.dropWhile_cons_of_pos h]; exact Nat.le_succ_of_le ih
    · rw [List.dropWhile_cons_of_neg h]

theorem length_trimL_le (l : List Char) : (trimL l).length ≤ (l.dropWhile isSpace).length := by
  unfold trimL
  rw [List.length_reverse]
  calc ((l.dropWhile isSpace).reverse.dropWhile isSpace).length
      ≤ (l.dropWhile isSpace).reverse.length := length_dropWhile_le _ _
    _ = (l.dropWhile isSpace).length := List.length_reverse _

theorem head_not_space {qh : Char} {qt : List Char}
    (h : trimL (qh :: qt) = qh :: qt) : isSpace qh = false := by
  cases hqh : isSpace qh with
  | false => rfl
  | true =>
    exfalso
    have h1 : ((qh :: qt).dropWhile isSpace).length ≤ qt.length := by
      rw [List.dropWhile_cons_of_pos hqh]
      exact length_dropWhile_le _ _
    have h2 : (trimL (qh :: qt)).length ≤ qt.length :=
      le_trans (length_trimL_le _) h1
    rw [h] at h2
    rw [List.length_cons] at h2
    omega

theorem last_not_space {q : List Char} (hne : q ≠ []) (h : trimL q = q) :
    ∃ qi ql, q = qi ++ [ql] ∧ isSpace ql = false := by
  cases q with
  | nil => exact absurd rfl hne
  | cons qh qt =>
    have hqh : isSpace qh = false := head_not_space h
    have hdrop : (qh :: qt).dropWhile isSpace = qh :: qt :=
      List.dropWhile_cons_of_neg (by simp [hqh])
    have h2 : ((qh :: qt).reverse.dropWhile isSpace).reverse = qh :: qt := by
      have := h
      unfold trimL at this
      rw [hdrop] at this
      exact this
    have h3 : (qh :: qt).reverse.dropWhile isSpace = (qh :: qt).reverse := by
      have := congrArg List.reverse h2
      simpa using this
    cases hrev : (qh :: qt).reverse with
    | nil => simp at hrev
    | cons a t =>
      rw [hrev] at h3
      have ha : isSpace a = false := by
        cases haw : isSpace a with
        | false => rfl
        | true =>
          exfalso
          rw [List.dropWhile_cons_of_pos haw] at h3
          have := congrArg List.length h3
          have hlen := length_dropWhile_le isSpace t
          simp at this
          omega
      refine ⟨t.reverse, a, ?_, ha⟩
      have : (qh :: qt).reverse.reverse = (a :: t).reverse := congrArg List.reverse hrev
      simpa using this

theorem trim_decomp (l : List Char) :
    ∃ w1 w2, (∀ c ∈ w1, isSpace c = true) ∧ (∀ c ∈ w2, isSpace c = true) ∧
      l = w1 ++ (trimL l ++ w2) := by
  refine ⟨l.takeWhile isSpace,
    (((l.dropWhile isSpace).reverse.takeWhile isSpace)).reverse, ?_, ?_, ?_⟩
  · intro c hc; exact List.mem_takeWhile_imp hc
  · intro c hc; exact List.mem_takeWhile_imp (List.mem_reverse.mp hc)
  · have h1 : l = l.takeWhile isSpace ++ l.dropWhile isSpace :=
      (List.takeWhile_append_dropWhile isSpace l).symm
    have h2 : l.dropWhile isSpace =
        trimL l ++ ((l.dropWhile isSpace).reverse.takeWhile isSpace).reverse := by
      have h3 : (l.dropWhile isSpace).reverse =
          (l.dropWhile isSpace).reverse.takeWhile isSpace ++
            (l.dropWhile isSpace).reverse.dropWhile isSpace :=
        (List.takeWhile_append_dropWhile isSpace (l.dropWhile isSpace).reverse).symm
      have h4 := congrArg List.reverse h3
      simp only [List.reverse_reverse, List.reverse_append] at h4
      exact h4
    calc l = l.takeWhile isSpace ++ l.dropWhile isSpace := h1
      _ = l.takeWhile isSpace ++ (trimL l ++
            ((l.dropWhile isSpace).reverse.takeWhile isSpace).reverse) := by rw [← h2]

theorem segIn_trim {q : List Char} (hne : q ≠ []) (hstr : trimL q = q)
    (l : List Char) : SegIn q l ↔ SegIn q (trimL l) := by
  obtain ⟨w1, w2, hw1, hw2, hdec⟩ := trim_decomp l
  obtain ⟨qi, ql, hq2, hql⟩ := last_not_space hne hstr
  have hpre : SegIn q (w1 ++ (trimL l ++ w2)) ↔ SegIn q (trimL l ++ w2) := by
    cases q with
    | nil => exact absurd rfl hne
    | cons qh qt => exact segIn_ws_pre (head_not_space hstr) w1 _ hw1
  have hsuf : SegIn q (trimL l ++ w2) ↔ SegIn q (trimL l) := by
    rw [hq2]
    exact segIn_ws_suf hql w2 (trimL l) hw2
  constructor
  · intro h
    rw [hdec] at h
    exact hsuf.mp (hpre.mp h)
  · intro h
    have h2 := hpre.mpr (hsuf.mpr h)
    rw [← hdec] at h2
    exact h2

theorem isSpace_lowerChar (c : Char) : isSpace (lowerChar c) = isSpace c := by
  unfold lowerChar
  cases h : lowerPairs.find? (fun p => p.1 = c) with
  | none => rfl
  | some p =>
    have hmem : p ∈ lowerPairs := List.mem_of_find?_eq_some h
    have hc := List.find?_some h
    simp only [decide_eq_true_eq] at hc
    subst hc
    fin_cases hmem <;> rfl

theorem trimL_lowerL (l : List Char) : trimL (lowerL l) = lowerL (trimL l) := by
  have hp : (isSpace ∘ lowerChar) = isSpace := funext (fun c => isSpace_lowerChar c)
  unfold trimL lowerL
  rw [List.dropWhile_map, hp, ← List.map_reverse, List.dropWhile_map, hp,
    ← List.map_reverse]

theorem lowerL_ne_nil {l : List Char} (h : l ≠ []) : lowerL l ≠ [] := by
  cases l with
  | nil => exact absurd rfl h
  | cons a t => simp [lowerL]

theorem string_data_ne {q : String} (h : q ≠ "") : q.data ≠ [] := by
  intro hd
  apply h
  cases q with
  | mk data => cases hd; rfl

/-- C5: for every participant collection and every non-empty query reaching
the search filter (the caller strips it, so it equals its own strip), the
filter returns exactly the rows whose case-insensitive, trimmed name
contains the query case-insensitively, in stored order; and a query holding
a regex metacharacter is matched as a literal substring, not as a pattern
(the dot query matches only the name with a literal dot). -/
theorem search_matches_spec (df : List Row) (q : String)
    (hne : q ≠ "") (hstr : trimS q = q) :
    searchRows df q = searchSpec df q ∧
      searchRows [⟨"a.c", "", "", ""⟩, ⟨"abc", "", "", ""⟩] "." =
        [⟨"a.c", "", "", ""⟩] := by
  constructor
  · apply List.filter_congr
    intro r _
    have hdne : q.data ≠ [] := string_data_ne hne
    have hdstr : trimL q.data = q.data := by
      have := congrArg String.data hstr
      simpa [trimS] using this
    have hQne : lowerL q.data ≠ [] := lowerL_ne_nil hdne
    have hQstr : trimL (lowerL q.data) = lowerL q.data := by
      rw [trimL_lowerL, hdstr]
    have hiff := segIn_trim hQne hQstr (lowerL r.nome.data)
    have h1 := (segInB_iff (lowerL q.data) (lowerL r.nome.data)).trans
      (hiff.trans (segInB_iff (lowerL q.data) (trimL (lowerL r.nome.data))).symm)
    exact Bool.coe_iff_coe.mp h1
  · decide

theorem search_matches_spec_witness :
    searchRows [⟨"Ana Silva", "11987654321", "Membro", pendente⟩] "ana" =
      searchSpec [⟨"Ana Silva", "11987654321", "Membro", pendente⟩] "ana" :=
  (search_matches_spec [⟨"Ana Silva", "11987654321", "Membro", pendente⟩] "ana"
    (by decide) (by decide)).1

theorem confirm_df_cases (df : List Row) (sel : String) (file : Option UploadedFile)
    (localOk blobOk saveOk : Bool) (ts : String) :
    (confirmSelected df sel file localOk blobOk saveOk ts).df = df ∨
    (confirmSelected df sel file localOk blobOk saveOk ts).df =
      df.map (fun r => if r.nome = sel then { r with status := emAnalise } else r) := by
  unfold confirmSelected
  repeat' split
  all_goals first | (left; rfl) | (right; rfl)

theorem confirm_guard (df : List Row) (sel : String) (file : Option UploadedFile)
    (localOk blobOk saveOk : Bool) (ts : String) (s : String)
    (hfs : firstStatus df sel = some s) (hs : s ≠ pendente) :
    confirmSelected df sel file localOk blobOk saveOk ts =
      ⟨df, [], none, .alreadySubmitted⟩ := by
  unfold firstStatus at hfs
  cases hfind : df.find? (fun r => r.nome = sel) with
  | none => rw [hfind] at hfs; simp at hfs
  | some r =>
    rw [hfind] at hfs
    simp only [Option.map_some'] at hfs
    injection hfs with hfs
    unfold confirmSelected
    rw [hfind]
    dsimp only
    rw [if_pos (by rw [hfs]; exact hs)]

/-- C1: when the selected participant (the first row whose name equals the
selection, which is how the code reads the current status) is not PENDING,
the confirmation attempt is a no-op that reports already-submitted: the
table is unchanged, no local or blob write happens, and the record store is
not rewritten. Moreover, over the status vocabulary this workflow itself
maintains, no confirmation attempt ever changes the status of a row whose
status is not PENDING: terminal rows keep their status. -/
theorem confirm_terminal_noop (df : List Row)
    (hdom : ∀ r ∈ df, r.status = pendente ∨ r.status = emAnalise) :
    (∀ (sel : String) (file : Option UploadedFile) (localOk blobOk saveOk : Bool)
        (ts s : String),
        firstStatus df sel = some s → s ≠ pendente →
        confirmSelected df sel file localOk blobOk saveOk ts =
          ⟨df, [], none, .alreadySubmitted⟩) ∧
    (∀ (sel : String) (file : Option UploadedFile) (localOk blobOk saveOk : Bool)
        (ts : String) (i : Nat) (r r' : Row),
        df[i]? = some r →
        ((confirmSelected df sel file localOk blobOk saveOk ts).df)[i]? = some r' →
        r.status ≠ pendente → r'.status = r.status) := by
  constructor
  · intro sel file localOk blobOk saveOk ts s hfs hs
    exact confirm_guard df sel file localOk blobOk saveOk ts s hfs hs
  · intro sel file localOk blobOk saveOk ts i r r' hi hi' hr
    rcases confirm_df_cases df sel file localOk blobOk saveOk ts with hdf | hdf
    · rw [hdf, hi] at hi'
      injection hi' with h
      rw [← h]
    · rw [hdf] at hi'
      rw [List.getElem?_map, hi] at hi'
      simp only [Option.map_some'] at hi'
      injection hi' with h
      by_cases hn : r.nome = sel
      · have hmem : r ∈ df := List.getElem?_mem hi
        rcases hdom r hmem with hp | he
        · exact absurd hp hr
        · rw [← h]
          simp only [if_pos hn]
          rw [he]
      · rw [← h]
        simp [if_neg hn]

theorem confirm_terminal_noop_witness :
    confirmSelected [⟨"Ana", "11987654321", "Membro", emAnalise⟩] "Ana" none true true true "t" =
      ⟨[⟨"Ana", "11987654321", "Membro", emAnalise⟩], [], none, .alreadySubmitted⟩ :=
  (confirm_terminal_noop [⟨"Ana", "11987654321", "Membro", emAnalise⟩]
    (by decide)).1 "Ana" none true true true "t" emAnalise (by decide) (by decide)

theorem firstStatus_find (df : List Row) (sel s : String)
    (h : firstStatus df sel = some s) :
    ∃ r, df.find? (fun r => r.nome = sel) = some r ∧ r.status = s := by
  unfold firstStatus at h
  cases hfind : df.find? (fun r => r.nome = sel) with
  | none => rw [hfind] at h; simp at h
  | some r =>
    rw [hfind] at h
    simp only [Option.map_some'] at h
    injection h with h
    exact ⟨r, rfl, h⟩

/-- C2: when the blob-store write fails for a pending participant, the
operation reports the upload error, the in-memory statuses are untouched
and the record store is not rewritten (the local copy under uploads is the
only write). The second conjunct covers a failing local write before the
blob call: again no mutation. The status mutation therefore happens only
after a successful blob write. -/
theorem blob_failure_aborts (df : List Row) (sel : String) (f : UploadedFile)
    (saveOk : Bool) (ts : String)
    (hpend : firstStatus df sel = some pendente) (hsize : f.size ≤ maxUploadSize) :
    confirmSelected df sel (some f) true false saveOk ts =
      ⟨df, [.localWrite uploadDir (mkFilename ts sel f.name)], none, .uploadFailed⟩ ∧
    confirmSelected df sel (some f) false false saveOk ts =
      ⟨df, [], none, .uploadFailed⟩ := by
  obtain ⟨r, hfind, hr⟩ := firstStatus_find df sel pendente hpend
  have hns : ¬ f.size > maxUploadSize := by omega
  have hup1 : uploadFile f sel ts true false =
      (.writeFailed, [.localWrite uploadDir (mkFilename ts sel f.name)]) := by
    unfold uploadFile
    rw [if_neg hns]
    rfl
  have hup2 : uploadFile f sel ts false false = (.writeFailed, []) := by
    unfold uploadFile
    rw [if_neg hns]
    rfl
  constructor
  · unfold confirmSelected
    rw [hfind]
    dsimp only
    rw [if_neg (by rw [hr]; simp), hup1]
  · unfold confirmSelected
    rw [hfind]
    dsimp only
    rw [if_neg (by rw [hr]; simp), hup2]

theorem blob_failure_aborts_witness :
    confirmSelected [⟨"Ana", "11987654321", "Membro", pendente⟩] "Ana"
        (some ⟨"comp.pdf", 500⟩) true false true "t" =
      ⟨[⟨"Ana", "11987654321", "Membro", pendente⟩],
       [.localWrite uploadDir (mkFilename "t" "Ana" "comp.pdf")], none, .uploadFailed⟩ :=
  (blob_failure_aborts [⟨"Ana", "11987654321", "Membro", pendente⟩] "Ana"
    ⟨"comp.pdf", 500⟩ true "t" (by decide) (by decide)).1

/-- C3: when the blob write succeeds for a pending participant but the
record-store rewrite fails, the attempt reports the persist failure, the
record store keeps its previous contents, the blob already created remains
as an orphan, and in any store where the participant was PENDING the
durable status is still PENDING afterwards. -/
theorem persist_failure_orphan (df : List Row) (sel : String) (f : UploadedFile) (ts : String)
    (hpend : firstStatus df sel = some pendente) (hsize : f.size ≤ maxUploadSize) :
    confirmSelected df sel (some f) true true false ts =
      ⟨df.map (fun r => if r.nome = sel then { r with status := emAnalise } else r),
       [.localWrite uploadDir (mkFilename ts sel f.name),
        .blobCreate (mkFilename ts sel f.name)],
       none, .saveFailed⟩ ∧
    (∀ store : List Row, firstStatus store sel = some pendente →
      firstStatus (applyStore store
        (confirmSelected df sel (some f) true true false ts).storeWrite) sel =
        some pendente) := by
  obtain ⟨r, hfind, hr⟩ := firstStatus_find df sel pendente hpend
  have hns : ¬ f.size > maxUploadSize := by omega
  have hup : uploadFile f sel ts true true =
      (.ok (mkFilename ts sel f.name),
       [.localWrite uploadDir (mkFilename ts sel f.name),
        .blobCreate (mkFilename ts sel f.name)]) := by
    unfold uploadFile
    rw [if_neg hns]
    rfl
  have hmain : confirmSelected df sel (some f) true true false ts =
      ⟨df.map (fun r => if r.nome = sel then { r with status := emAnalise } else r),
       [.localWrite uploadDir (mkFilename ts sel f.name),
        .blobCreate (mkFilename ts sel f.name)],
       none, .saveFailed⟩ := by
    unfold confirmSelected
    rw [hfind]
    dsimp only
    rw [if_neg (by rw [hr]; simp), hup]
    rfl
  refine ⟨hmain, ?_⟩
  intro store hst
  rw [hmain]
  exact hst

theorem persist_failure_orphan_witness :
    confirmSelected [⟨"Ana", "11987654321", "Membro", pendente⟩] "Ana"
        (some ⟨"comp.pdf", 500⟩) true true false "t" =
      ⟨[⟨"Ana", "11987654321", "Membro", pendente⟩].map
          (fun r => if r.nome = "Ana" then { r with status := emAnalise } else r),
       [.localWrite uploadDir (mkFilename "t" "Ana" "comp.pdf"),
        .blobCreate (mkFilename "t" "Ana" "comp.pdf")], none, .saveFailed⟩ :=
  (persist_failure_orphan [⟨"Ana", "11987654321", "Membro", pendente⟩] "Ana"
    ⟨"comp.pdf", 500⟩ "t" (by decide) (by decide)).1

/-- C4: a proof larger than 2097152 bytes is rejected by the size check
before any write: the upload helper returns the too-large failure with an
empty event trace for every flag combination, and a confirmation attempt
for a pending participant with such a file leaves the table unchanged,
performs no local or blob write, and does not touch the record store. -/
theorem oversize_rejected (f : UploadedFile) (hsize : f.size > maxUploadSize) :
    (∀ (nm ts : String) (localOk blobOk : Bool),
      uploadFile f nm ts localOk blobOk = (.tooLarge, [])) ∧
    (∀ (df : List Row) (sel : String) (localOk blobOk saveOk : Bool) (ts : String),
      firstStatus df sel = some pendente →
      confirmSelected df sel (some f) localOk blobOk saveOk ts =
        ⟨df, [], none, .tooLarge⟩) := by
  have hup : ∀ (nm ts : String) (localOk blobOk : Bool),
      uploadFile f nm ts localOk blobOk = (.tooLarge, []) := by
    intro nm ts localOk blobOk
    unfold uploadFile
    rw [if_pos hsize]
  refine ⟨hup, ?_⟩
  intro df sel localOk blobOk saveOk ts hpend
  obtain ⟨r, hfind, hr⟩ := firstStatus_find df sel pendente hpend
  unfold confirmSelected
  rw [hfind]
  dsimp only
  rw [if_neg (by rw [hr]; simp), hup sel ts localOk blobOk]

theorem oversize_rejected_witness :
    uploadFile ⟨"comp.pdf", 3 * 1024 * 1024⟩ "Ana" "t" true true = (.tooLarge, []) :=
  (oversize_rejected ⟨"comp.pdf", 3 * 1024 * 1024⟩ (by decide)).1 "Ana" "t" true true

/-- C10: for every proof within the size bound, the uploads directory
exists from handler construction, the file is written locally under that
directory as the first event, before the blob-store create, and the local
copy is still present in the trace when the blob write fails: nothing ever
deletes it. -/
theorem local_write_persists (f : UploadedFile) (nm ts : String)
    (hsize : f.size ≤ maxUploadSize) :
    fileHandlerInitDirs = [uploadDir] ∧
    uploadFile f nm ts true true =
      (.ok (mkFilename ts nm f.name),
       [.localWrite uploadDir (mkFilename ts nm f.name),
        .blobCreate (mkFilename ts nm f.name)]) ∧
    uploadFile f nm ts true false =
      (.writeFailed, [.localWrite uploadDir (mkFilename ts nm f.name)]) := by
  have hns : ¬ f.size > maxUploadSize := by omega
  refine ⟨rfl, ?_, ?_⟩ <;> (unfold uploadFile; rw [if_neg hns]; rfl)

theorem local_write_persists_witness :
    uploadFile ⟨"comp.pdf", 500⟩ "Ana" "t" true false =
      (.writeFailed, [.localWrite uploadDir (mkFilename "t" "Ana" "comp.pdf")]) :=
  (local_write_persists ⟨"comp.pdf", 500⟩ "Ana" "t" (by decide)).2.2

/-- C6 counterexample: the stored name ana and the input name ana followed
by a space have equal normalizations in the claimed sense (lower case after
trimming), yet registration does not report a duplicate: it appends a row,
because the code compares lowered names without trimming. -/
theorem register_untrimmed_dup_cex :
    (register [⟨"ana", "21999998887", "Membro", pendente⟩]
        ⟨"ana ", "(21) 99999-8888", "Membro"⟩ true).outcome ≠ RegOutcome.duplicate ∧
    (register [⟨"ana", "21999998887", "Membro", pendente⟩]
        ⟨"ana ", "(21) 99999-8888", "Membro"⟩ true).df.length = 2 ∧
    lowerS (trimS "ana ") = lowerS (trimS "ana") := by decide

/-- C6 as amended: with a non-empty name and an eleven-digit phone, an
input whose lowered form (without trimming) equals the lowered stored name
of an existing participant fails with the duplicate report and leaves the
collection unchanged, with no store write. -/
theorem register_duplicate_lower_exact (df : List Row) (inp : RegInput) (saveOk : Bool)
    (hname : inp.name ≠ "") (hdig : (stripNonDigits inp.phone).length = 11)
    (hdup : dupCheck df inp.name = true) :
    register df inp saveOk = ⟨df, .duplicate, none⟩ := by
  have hne : stripNonDigits inp.phone ≠ "" := by
    intro h
    rw [h] at hdig
    simp at hdig
  unfold register
  rw [if_neg (by push_neg; exact ⟨hname, hne⟩)]
  rw [if_neg (by simp [hdig])]
  rw [if_pos hdup]

theorem register_duplicate_lower_exact_witness :
    register [⟨"Ana", "21999998887", "Membro", pendente⟩]
        ⟨"ana", "(21) 99999-8888", "Membro"⟩ true =
      ⟨[⟨"Ana", "21999998887", "Membro", pendente⟩], .duplicate, none⟩ :=
  register_duplicate_lower_exact [⟨"Ana", "21999998887", "Membro", pendente⟩]
    ⟨"ana", "(21) 99999-8888", "Membro"⟩ true (by decide) (by decide) (by decide)

/-- C7: the code accepts a whitespace-only name with a valid phone; the
truthiness check of line 201 sees a non-empty string, so no validation
error is reported, a row whose stored name is empty (the name is stripped
at line 212) is appended with status PENDING, and the record store is
rewritten. The claim says such an input must fail with a validation error
and change no state. -/
theorem register_whitespace_name_accepted :
    register [] ⟨"   ", "(21) 99999-8888", "Membro"⟩ true =
      ⟨[⟨"", "21999998888", "Membro", pendente⟩], .saved,
        some [⟨"", "21999998888", "Membro", pendente⟩]⟩ := by decide

/-- C8: registration rejects any phone whose digit count after stripping
non-digits is not exactly eleven, with one of the two validation reports
and no change of the table and no store write; the sample input with area
code 21 normalizes to the eleven digits 21999998888; and a valid fresh
registration appends exactly one row holding the stripped name, the digit
string, the chosen type and the PENDING status, rewriting the store when
the save succeeds. -/
theorem register_phone_validation (df : List Row) (inp : RegInput) (saveOk : Bool) :
    ((stripNonDigits inp.phone).length ≠ 11 →
      (register df inp saveOk).df = df ∧ (register df inp saveOk).storeWrite = none ∧
      ((register df inp saveOk).outcome = .missingFields ∨
        (register df inp saveOk).outcome = .invalidPhone)) ∧
    stripNonDigits "(21) 99999-8888" = "21999998888" ∧
    (inp.name ≠ "" → (stripNonDigits inp.phone).length = 11 →
      dupCheck df inp.name = false →
      (register df inp saveOk).df =
        df ++ [⟨trimS inp.name, stripNonDigits inp.phone, inp.tipo, pendente⟩] ∧
      (register df inp saveOk).storeWrite =
        (if saveOk then
          some (df ++ [⟨trimS inp.name, stripNonDigits inp.phone, inp.tipo, pendente⟩])
         else none)) := by
  refine ⟨?_, by decide, ?_⟩
  · intro hlen
    unfold register
    by_cases hz : inp.name = "" ∨ stripNonDigits inp.phone = ""
    · rw [if_pos hz]
      exact ⟨rfl, rfl, Or.inl rfl⟩
    · rw [if_neg hz, if_pos hlen]
      exact ⟨rfl, rfl, Or.inr rfl⟩
  · intro hname hlen hdup
    have hne : stripNonDigits inp.phone ≠ "" := by
      intro h
      rw [h] at hlen
      simp at hlen
    unfold register
    rw [if_neg (by push_neg; exact ⟨hname, hne⟩)]
    rw [if_neg (by simp [hlen])]
    rw [if_neg (by simp [hdup])]
    cases saveOk with
    | true => exact ⟨rfl, rfl⟩
    | false => exact ⟨rfl, rfl⟩

theorem register_phone_validation_witness :
    (register [] ⟨"Ana Silva", "(11) 91234-5678", "Membro"⟩ true).df =
      [] ++ [⟨trimS "Ana Silva", stripNonDigits "(11) 91234-5678", "Membro", pendente⟩] :=
  ((register_phone_validation [] ⟨"Ana Silva", "(11) 91234-5678", "Membro"⟩
    true).2.2 (by decide) (by decide) (by decide)).1

/-- C9: a failing record-store read is swallowed: load yields the canonical
empty four-column frame, identical to the frame for a store with no values,
it denotes no participant rows, and the registration duplicate check over
it finds no match for any name. -/
theorem load_failure_is_empty_table :
    loadData .failure = emptyFrame ∧
    loadData (.success []) = loadData .failure ∧
    rowsOfFrame (loadData .failure) = [] ∧
    (∀ name : String, dupCheck (rowsOfFrame (loadData .failure)) name = false) := by
  exact ⟨rfl, rfl, rfl, fun name => rfl⟩
